import Mathlib

/-!
Shallow embedding of the element-shaping and tag-normalization pipeline of
`src/data.py` (OpenStreetMap data-wrangling script).  Python strings are
modelled as Lean `String`; Python `str.upper` is modelled characterwise on
ASCII; Python `str.replace` is modelled as left-to-right non-overlapping
replacement; the two regexes `PROBLEMCHARS` and `street_type_re` are modelled
by explicit scanning functions; Python exceptions are modelled with `Except`.
-/

/-- Python whitespace characters, the complement of the regex class `\S`. -/
def pyIsSpace (c : Char) : Bool :=
  c == ' ' || c == '\t' || c == '\n' || c == '\r' || c == '\x0b' || c == '\x0c'

/-- Regex word characters (for the `\b` anchor in `street_type_re`). -/
def isWordChar (c : Char) : Bool :=
  c.isAlphanum || c == '_'

/-- Python `str.upper` on a single character (ASCII range, as exercised by the script). -/
def pyCharUpper (c : Char) : Char :=
  if 97 ≤ c.toNat ∧ c.toNat ≤ 122 then Char.ofNat (c.toNat - 32) else c

/-- Python `str.upper`: uppercase every character. -/
def pyUpper (s : String) : String :=
  ⟨s.data.map pyCharUpper⟩

theorem toNat_charOfNat_of_lt (n : Nat) (h : n < 0xd800) : (Char.ofNat n).toNat = n := by
  have hv : n.isValidChar := Or.inl h
  simp [Char.ofNat, hv, Char.ofNatAux, Char.toNat, UInt32.toNat]

theorem pyCharUpper_idem (c : Char) : pyCharUpper (pyCharUpper c) = pyCharUpper c := by
  unfold pyCharUpper
  by_cases h : 97 ≤ c.toNat ∧ c.toNat ≤ 122
  · have h32 : (Char.ofNat (c.toNat - 32)).toNat = c.toNat - 32 :=
      toNat_charOfNat_of_lt _ (by omega)
    have hne : ¬(97 ≤ (Char.ofNat (c.toNat - 32)).toNat ∧
        (Char.ofNat (c.toNat - 32)).toNat ≤ 122) := by rw [h32]; omega
    rw [if_pos h, if_neg hne]
  · rw [if_neg h, if_neg h]

theorem map_pyCharUpper_idem (l : List Char) :
    (l.map pyCharUpper).map pyCharUpper = l.map pyCharUpper := by
  induction l with
  | nil => rfl
  | cons c cs ih => simp only [List.map_cons, pyCharUpper_idem, ih]

theorem pyUpper_idem (s : String) : pyUpper (pyUpper s) = pyUpper s := by
  unfold pyUpper
  exact congrArg String.mk (map_pyCharUpper_idem s.data)

/-- One scan of Python `str.replace`: move left to right, replacing each
non-overlapping occurrence of the (nonempty) pattern.  The `fuel` argument
makes the recursion structural; every step consumes at least one character, so
`fuel = s.length` always suffices. -/
def replAux (pat rep : List Char) : Nat → List Char → List Char
  | 0, s => s
  | _ + 1, [] => []
  | fuel + 1, c :: rest =>
    if !pat.isEmpty && pat.isPrefixOf (c :: rest) then
      rep ++ replAux pat rep fuel ((c :: rest).drop pat.length)
    else
      c :: replAux pat rep fuel rest

/-- Python `str.replace` on character lists (an empty pattern matches at every
gap, as in Python). -/
def pyReplaceL (s pat rep : List Char) : List Char :=
  if pat = [] then rep ++ s.flatMap (fun c => c :: rep)
  else replAux pat rep s.length s

/-- Python `str.replace`. -/
def pyReplace (s pat rep : String) : String :=
  ⟨pyReplaceL s.data pat.data rep.data⟩

/-- The trailing run of non-whitespace characters of a string (candidate region
for a match of `street_type_re`, which is anchored at `$`). -/
def trailingRun (s : List Char) : List Char :=
  (s.reverse.takeWhile (fun c => !pyIsSpace c)).reverse

/-- The region searched by a `$`-anchored regex in Python: `$` also matches
just before one trailing newline. -/
def searchTarget (s : List Char) : List Char :=
  if s.getLast? == some '\n' then s.dropLast else s

/-- Scan for the first position with a `\b` word boundary (the `prevWord` flag
says whether the previous character was a word character) and return the
remaining characters from that position on. -/
def findFromBoundary : Bool → List Char → Option (List Char)
  | _, [] => none
  | prevWord, c :: rest =>
    if isWordChar c != prevWord then some (c :: rest)
    else findFromBoundary (isWordChar c) rest

/-- Model of `street_type_re.search(name)` for the regex `\b\S+\.?$`: the match,
when it exists, is the suffix of the trailing non-whitespace run of the
(`$`-adjusted) string starting at its first word boundary. -/
def streetTypeSearch (name : String) : Option String :=
  (findFromBoundary false (trailingRun (searchTarget name.data))).map
    (fun l => ⟨l⟩)

/-- The character class of the `PROBLEMCHARS` regex in `data.py`. -/
def problemChars : List Char :=
  ['=', '+', '/', '&', '<', '>', ';', '\x27', '\x22', '?', '%', '#', '$', '@',
   ',', '.', ' ', '\t', '\r', '\n']

/-- Model of `PROBLEMCHARS.search(key_name)` viewed as a Boolean: does the key
contain a disallowed character anywhere? -/
def hasProblemChars (k : String) : Bool :=
  k.data.any (fun c => problemChars.contains c)

/-- Python `key_name.split(':', 1)` for a first-occurrence single split:
returns the parts before and after the first occurrence of `c`. -/
def splitOnceL (c : Char) : List Char → List Char × List Char
  | [] => ([], [])
  | x :: xs =>
    if x == c then ([], xs)
    else
      let p := splitOnceL c xs
      (x :: p.1, p.2)

/-- Python `s.split(sep, 1)` packaged as the two halves (only used when `sep`
occurs in `s`, as in `handle_tags`). -/
def splitOnce (s : String) (c : Char) : String × String :=
  let p := splitOnceL c s.data
  (⟨p.1⟩, ⟨p.2⟩)


/-- A row of the street cross-reference table (`USPS Street Abbrev.csv`):
columns `FullName`, `CommonName`, `USPSName`. -/
structure StreetEntry where
  fullName : String
  commonName : String
  uspsName : String
deriving DecidableEq, Repr

/-- A row of the city cross-reference table (`Cities_List.csv`): columns
`OriginalName`, `NewName`. -/
structure CityEntry where
  originalName : String
  newName : String
deriving DecidableEq, Repr

/-- Python runtime errors surfaced by the pipeline: `KeyError` from a missing
dict key, `UnboundLocalError` from reading a never-assigned local, and
`IndexError` from `.iloc[0]` on an empty selection. -/
inductive PyErr where
  | keyError
  | unboundLocalError
  | indexError
deriving DecidableEq, Repr

/-- `update_name(name, CR)` from `data.py`: find the trailing street-type token
with `street_type_re`; look its uppercased form up in the `CommonName` column
first and in the `USPSName` column only on a miss (`CR.loc[...].iloc[0]` takes
the first matching row); on a hit, substitute the row's `FullName` for every
occurrence of the uppercased token via `str.replace`; finally uppercase. -/
def update_name (name : String) (CR : List StreetEntry) : String :=
  match streetTypeSearch name with
  | some street_type =>
    let street_type_upper := pyUpper street_type
    match CR.find? (fun r => r.commonName == street_type_upper) with
    | some row => pyUpper (pyReplace name street_type_upper row.fullName)
    | none =>
      match CR.find? (fun r => r.uspsName == street_type_upper) with
      | some row => pyUpper (pyReplace name street_type_upper row.fullName)
      | none => pyUpper name
  | none => pyUpper name

/-- `update_city_name(name, CR)` from `data.py`.  The membership test uses
`str.upper(name)` but the row retrieval filters on the unmodified `name`; when
the two disagree, `.iloc[0]` runs on an empty selection and raises
`IndexError`. -/
def update_city_name (name : String) (CR : List CityEntry) : Except PyErr String :=
  if CR.any (fun r => r.originalName == pyUpper name) then
    match CR.find? (fun r => r.originalName == name) with
    | some row => .ok (pyReplace name name row.newName)
    | none => .error .indexError
  else
    .ok name

/-- The named tuple returned by `handle_tags`. -/
structure KeyValueType where
  key : String
  value : String
  type : String
deriving DecidableEq, Repr

/-- `handle_tags(key_name, value_name)` from `data.py`.  The value is
uppercased first.  If the key has no problem character and contains `':'`, it
is split once on the first `':'`; the code assigns the left half to `key_name`
and the right half to `type_name`, and runs street / city normalization when
`type_name` equals `"street"` / `"city"`.  If the key has a problem character,
neither branch assigns `type_name`, so the final read of `type_name` raises
`UnboundLocalError`. -/
def handle_tags (Cross_Reference : List StreetEntry)
    (Cross_Reference_Cities : List CityEntry) (key_name value_name : String) :
    Except PyErr KeyValueType :=
  let value_name := pyUpper value_name
  if hasProblemChars key_name then
    .error .unboundLocalError
  else if key_name.data.contains ':' then
    let key_split := splitOnce key_name ':'
    let key_name := key_split.1
    let type_name := key_split.2
    if type_name == "street" then
      .ok ⟨key_name, update_name value_name Cross_Reference, type_name⟩
    else if type_name == "city" then
      match update_city_name value_name Cross_Reference_Cities with
      | .ok v => .ok ⟨key_name, v, type_name⟩
      | .error e => .error e
    else
      .ok ⟨key_name, value_name, type_name⟩
  else
    .ok ⟨key_name, value_name, "regular"⟩

/-- An ElementTree XML element: tag name, attribute dictionary, children in
document order. -/
inductive XmlElement where
  | mk (tag : String) (attrib : List (String × String)) (children : List XmlElement)
deriving Repr

/-- The tag name of an element. -/
def XmlElement.tag : XmlElement → String
  | .mk t _ _ => t

/-- The attribute dictionary of an element. -/
def XmlElement.attrib : XmlElement → List (String × String)
  | .mk _ a _ => a

/-- The child elements in document order. -/
def XmlElement.children : XmlElement → List XmlElement
  | .mk _ _ c => c

/-- `element.attrib[name]` as a partial lookup (`None` when absent). -/
def lookupAttr (e : XmlElement) (name : String) : Option String :=
  List.lookup name e.attrib

/-- `element.attrib[name]`: a missing key raises `KeyError`. -/
def getAttr (e : XmlElement) (name : String) : Except PyErr String :=
  match lookupAttr e name with
  | some v => .ok v
  | none => .error .keyError

mutual

/-- `element.iter(t)`: the element itself (when its tag matches) followed by
all matching descendants, in document order. -/
def iterElems (t : String) : XmlElement → List XmlElement
  | .mk tg ats ch =>
    (if tg == t then [XmlElement.mk tg ats ch] else []) ++ iterElemsList t ch

/-- `iterElems` mapped over a sibling list, keeping document order. -/
def iterElemsList (t : String) : List XmlElement → List XmlElement
  | [] => []
  | c :: cs => iterElems t c ++ iterElemsList t cs

end

/-- `NODE_FIELDS` from `data.py`. -/
def NODE_FIELDS : List String :=
  ["id", "lat", "lon", "user", "uid", "version", "changeset", "timestamp"]

/-- `WAY_FIELDS` from `data.py`. -/
def WAY_FIELDS : List String :=
  ["id", "user", "uid", "version", "changeset", "timestamp"]

/-- One emitted secondary-tag dictionary (`tag_values` copy). -/
structure TagRecord where
  id : String
  key : String
  value : String
  type : String
deriving DecidableEq, Repr

/-- One emitted way-node dictionary (`way_node_values` copy). -/
structure WayNodeRecord where
  id : String
  node_id : String
  position : Nat
deriving DecidableEq, Repr

/-- The dictionary returned by `shape_element`: either a node group or a way
group. -/
inductive Shaped where
  | node (node_attribs : List (String × String)) (node_tags : List TagRecord)
  | way (way_attribs : List (String × String)) (way_nodes : List WayNodeRecord)
      (way_tags : List TagRecord)
deriving DecidableEq, Repr

/-- The primary-attribute loop of `shape_element`: for each field in order,
read `element.attrib[field]` (raising `KeyError` when absent), store its
uppercased form, and capture the raw value into the id variable when the field
is `"id"`. -/
def extractFieldsAux (e : XmlElement) : List String → String →
    Except PyErr (List (String × String) × String)
  | [], curId => .ok ([], curId)
  | f :: fs, curId =>
    match lookupAttr e f with
    | none => .error .keyError
    | some v =>
      match extractFieldsAux e fs (if f == "id" then v else curId) with
      | .error er => .error er
      | .ok (ats, i) => .ok ((f, pyUpper v) :: ats, i)

/-- The secondary-tag loop of `shape_element`: one `TagRecord` per `tag`
element, with the captured owner id and the `handle_tags` result. -/
def processTags (ownerId : String) (cr : List StreetEntry) (ccr : List CityEntry) :
    List XmlElement → Except PyErr (List TagRecord)
  | [] => .ok []
  | te :: rest =>
    match getAttr te "k" with
    | .error er => .error er
    | .ok k =>
      match getAttr te "v" with
      | .error er => .error er
      | .ok v =>
        match handle_tags cr ccr k v with
        | .error er => .error er
        | .ok kvt =>
          match processTags ownerId cr ccr rest with
          | .error er => .error er
          | .ok rest2 => .ok (⟨ownerId, kvt.key, kvt.value, kvt.type⟩ :: rest2)

/-- The node-reference loop of `shape_element`: one `WayNodeRecord` per `nd`
element, with the captured owner id, the uppercased `ref` attribute, and the
running 0-based index. -/
def processNds (ownerId : String) (index : Nat) :
    List XmlElement → Except PyErr (List WayNodeRecord)
  | [] => .ok []
  | ne :: rest =>
    match getAttr ne "ref" with
    | .error er => .error er
    | .ok r =>
      match processNds ownerId (index + 1) rest with
      | .error er => .error er
      | .ok rest2 => .ok (⟨ownerId, pyUpper r, index⟩ :: rest2)

/-- `shape_element(element)` from `data.py`.  For a node: extract the primary
fields, then one record per `tag` descendant.  For a way: extract the primary
fields, then the tag records; the `for element in element.iter('tag')` loop
rebinds the variable `element`, so the following `element.iter('nd')` loop
runs on the last `tag` element whenever at least one tag was iterated, and on
the way element itself otherwise.  Any other tag returns `None`. -/
def shape_element (cr : List StreetEntry) (ccr : List CityEntry)
    (element : XmlElement) : Except PyErr (Option Shaped) :=
  if element.tag == "node" then
    match extractFieldsAux element NODE_FIELDS "" with
    | .error er => .error er
    | .ok (node_attribs, nodeid) =>
      match processTags nodeid cr ccr (iterElems "tag" element) with
      | .error er => .error er
      | .ok tags => .ok (some (.node node_attribs tags))
  else if element.tag == "way" then
    match extractFieldsAux element WAY_FIELDS "" with
    | .error er => .error er
    | .ok (way_attribs, wayid) =>
      match processTags wayid cr ccr (iterElems "tag" element) with
      | .error er => .error er
      | .ok tags =>
        let ndSource :=
          match (iterElems "tag" element).getLast? with
          | some lastTag => lastTag
          | none => element
        match processNds wayid 0 (iterElems "nd" ndSource) with
        | .error er => .error er
        | .ok wns => .ok (some (.way way_attribs wns tags))
  else
    .ok none


theorem extractFieldsAux_error_of_missing (e : XmlElement) :
    ∀ (fs : List String), (∃ f ∈ fs, lookupAttr e f = none) →
    ∀ cur, extractFieldsAux e fs cur = .error .keyError := by
  intro fs
  induction fs with
  | nil => rintro ⟨f, hf, _⟩ cur; cases hf
  | cons g gs ih =>
    rintro ⟨f, hf, hnone⟩ cur
    simp only [extractFieldsAux]
    split
    · rfl
    · next v hg =>
      have hfg : f ∈ gs := by
        rcases List.mem_cons.mp hf with h | h
        · subst h; rw [hg] at hnone; cases hnone
        · exact h
      rw [ih ⟨f, hfg, hnone⟩]

theorem extractFieldsAux_id_const (e : XmlElement) :
    ∀ (fs : List String), "id" ∉ fs → ∀ cur ats i0,
    extractFieldsAux e fs cur = .ok (ats, i0) → i0 = cur := by
  intro fs
  induction fs with
  | nil =>
    intro _ cur ats i0 h
    simp only [extractFieldsAux] at h
    cases h
    rfl
  | cons g gs ih =>
    intro hmem cur ats i0 h
    simp only [extractFieldsAux] at h
    split at h
    · cases h
    · next v hg =>
      split at h
      · cases h
      · next ats2 i2 hrec =>
        cases h
        have hg2 : (g == "id") = false := by
          simp only [beq_eq_false_iff_ne, ne_eq]
          intro hc
          exact hmem (by simp [hc])
        have hif : (if (g == "id") = true then v else cur) = cur := by
          rw [hg2]
          simp
        rw [hif] at hrec
        exact ih (fun hm => hmem (List.mem_cons_of_mem _ hm)) _ _ _ hrec

theorem extractFieldsAux_captures_id (e : XmlElement) (i : String)
    (hid : lookupAttr e "id" = some i) :
    ∀ (fs : List String), "id" ∈ fs → ∀ cur ats i0,
    extractFieldsAux e fs cur = .ok (ats, i0) → i0 = i := by
  intro fs
  induction fs with
  | nil => intro hmem; cases hmem
  | cons g gs ih =>
    intro hmem cur ats i0 h
    simp only [extractFieldsAux] at h
    split at h
    · cases h
    · next v hg =>
      split at h
      · cases h
      · next ats2 i2 hrec =>
        cases h
        by_cases hgid : g = "id"
        · subst hgid
          rw [hid] at hg
          injection hg with hv
          subst hv
          have hif : (if ("id" == "id") = true then i else cur) = i := by simp
          rw [hif] at hrec
          by_cases hmem2 : "id" ∈ gs
          · exact ih hmem2 _ _ _ hrec
          · exact extractFieldsAux_id_const e gs hmem2 _ _ _ hrec
        · have hg2 : (g == "id") = false := by
            simp only [beq_eq_false_iff_ne, ne_eq]
            exact hgid
          have hif : (if (g == "id") = true then v else cur) = cur := by
            rw [hg2]
            simp
          rw [hif] at hrec
          have hmem2 : "id" ∈ gs := by
            rcases List.mem_cons.mp hmem with h2 | h2
            · exact absurd h2.symm hgid
            · exact h2
          exact ih hmem2 _ _ _ hrec

theorem extractFieldsAux_lookup_id (e : XmlElement) (i : String)
    (hid : lookupAttr e "id" = some i) :
    ∀ (fs : List String), "id" ∈ fs → ∀ cur ats i0,
    extractFieldsAux e fs cur = .ok (ats, i0) →
    List.lookup "id" ats = some (pyUpper i) := by
  intro fs
  induction fs with
  | nil => intro hmem; cases hmem
  | cons g gs ih =>
    intro hmem cur ats i0 h
    simp only [extractFieldsAux] at h
    split at h
    · cases h
    · next v hg =>
      split at h
      · cases h
      · next ats2 i2 hrec =>
        cases h
        by_cases hgid : g = "id"
        · subst hgid
          rw [hid] at hg
          injection hg with hv
          subst hv
          simp [List.lookup]
        · have hmem2 : "id" ∈ gs := by
            rcases List.mem_cons.mp hmem with h2 | h2
            · exact absurd h2.symm hgid
            · exact h2
          have hne : ("id" == g) = false := by
            simp only [beq_eq_false_iff_ne, ne_eq]
            exact fun hc => hgid hc.symm
          simp only [List.lookup, hne]
          exact ih hmem2 _ _ _ hrec

theorem extractFieldsAux_vals (e : XmlElement) :
    ∀ (fs : List String) cur ats i0,
    extractFieldsAux e fs cur = .ok (ats, i0) →
    ∀ p ∈ ats, ∃ raw, lookupAttr e p.1 = some raw ∧ p.2 = pyUpper raw := by
  intro fs
  induction fs with
  | nil =>
    intro cur ats i0 h p hp
    simp only [extractFieldsAux] at h
    cases h
    cases hp
  | cons g gs ih =>
    intro cur ats i0 h p hp
    simp only [extractFieldsAux] at h
    split at h
    · cases h
    · next v hg =>
      split at h
      · cases h
      · next ats2 i2 hrec =>
        cases h
        rcases List.mem_cons.mp hp with h2 | h2
        · subst h2
          exact ⟨v, hg, rfl⟩
        · exact ih _ _ _ hrec p h2

theorem processTags_owner (ownerId : String) (cr : List StreetEntry)
    (ccr : List CityEntry) :
    ∀ (els : List XmlElement) (tags : List TagRecord),
    processTags ownerId cr ccr els = .ok tags →
    ∀ t ∈ tags, t.id = ownerId := by
  intro els
  induction els with
  | nil =>
    intro tags h t ht
    simp only [processTags] at h
    cases h
    cases ht
  | cons te rest ih =>
    intro tags h t ht
    simp only [processTags] at h
    split at h
    · cases h
    · next k hk =>
      split at h
      · cases h
      · next v hv =>
        split at h
        · cases h
        · next kvt hkvt =>
          split at h
          · cases h
          · next rest2 hrest =>
            cases h
            rcases List.mem_cons.mp ht with h2 | h2
            · subst h2
              rfl
            · exact ih _ hrest t h2

theorem processNds_owner (ownerId : String) :
    ∀ (els : List XmlElement) (index : Nat) (wns : List WayNodeRecord),
    processNds ownerId index els = .ok wns →
    ∀ wn ∈ wns, wn.id = ownerId ∧ ∃ raw, wn.node_id = pyUpper raw := by
  intro els
  induction els with
  | nil =>
    intro index wns h wn hwn
    simp only [processNds] at h
    cases h
    cases hwn
  | cons ne rest ih =>
    intro index wns h wn hwn
    simp only [processNds] at h
    split at h
    · cases h
    · next r hr =>
      split at h
      · cases h
      · next rest2 hrest =>
        cases h
        rcases List.mem_cons.mp hwn with h2 | h2
        · subst h2
          exact ⟨rfl, r, rfl⟩
        · exact ih _ _ hrest wn h2

/-- C1: the claim says a raw key with a namespace separator yields `type` =
substring before the first `':'` and `key` = substring after it, so that
`"addr:street:name"` gives `type = "addr"`, `key = "street:name"`.  The code
(contradicting its own module docstring) assigns the two halves the other way
round: evaluating `handle_tags` at `"addr:street:name"` yields
`key = "addr"` and `type = "street:name"`. -/
theorem handle_tags_swaps_type_and_key :
    handle_tags [] [] "addr:street:name" "Lincoln" =
      .ok ⟨"addr", "LINCOLN", "street:name"⟩ := rfl

/-- C2: the claim says a raw key containing a disallowed character is silently
dropped (no record, no error).  In the code, when `PROBLEMCHARS` matches, no
branch of `handle_tags` ever assigns the local `type_name`, so the final
`return` raises `UnboundLocalError` instead of dropping the tag; the error
propagates out of `shape_element`. -/
theorem handle_tags_problem_key_raises_unbound_local :
    handle_tags [] [] "a=b" "x" = .error .unboundLocalError ∧
    shape_element [] []
      (.mk "node"
        [("id", "1"), ("lat", "2"), ("lon", "3"), ("user", "u"), ("uid", "4"),
         ("version", "5"), ("changeset", "6"), ("timestamp", "t")]
        [.mk "tag" [("k", "a=b"), ("v", "x")] []]) =
      .error .unboundLocalError := ⟨rfl, rfl⟩

/-- C4: the claim says every way element yields node-reference records with
positions `0..n-1` for its `n` `nd` children.  But the tag loop
`for element in element.iter('tag')` rebinds `element`, so when a way has at
least one `tag` child the subsequent `element.iter('nd')` iterates over the
last tag element and finds nothing: this way element has one `nd` child yet
its shaped output contains no way-node record at all (the module docstring's
own example output, with both `way_tags` and `way_nodes` populated, is
unreachable). -/
theorem shape_element_way_nd_loop_starved :
    shape_element [] []
      (.mk "way"
        [("id", "209"), ("user", "u"), ("uid", "1"), ("version", "1"),
         ("changeset", "2"), ("timestamp", "t")]
        [.mk "tag" [("k", "building"), ("v", "yes")] [],
         .mk "nd" [("ref", "10")] []]) =
      .ok (some (.way
        [("id", "209"), ("user", "U"), ("uid", "1"), ("version", "1"),
         ("changeset", "2"), ("timestamp", "T")]
        []
        [⟨"209", "building", "YES", "regular"⟩])) ∧
    (iterElems "nd"
      (.mk "way"
        [("id", "209"), ("user", "u"), ("uid", "1"), ("version", "1"),
         ("changeset", "2"), ("timestamp", "t")]
        [.mk "tag" [("k", "building"), ("v", "yes")] [],
         .mk "nd" [("ref", "10")] []])).length = 1 := ⟨rfl, rfl⟩

/-- C5: for a street-typed value the normalizer extracts the trailing token,
looks its uppercased form up in the common-name column first and only on a
miss in the USPS-name column (common-name priority), and on a hit substitutes
the canonical full form; with common-name `"ST"` mapped to `"STREET"`, the
pipeline value `"Lincoln St"` (uppercased on entry) becomes
`"LINCOLN STREET"`. -/
theorem update_name_common_priority :
    (∀ (CR : List StreetEntry) (name t : String) (row : StreetEntry),
        streetTypeSearch name = some t →
        CR.find? (fun r => r.commonName == pyUpper t) = some row →
        update_name name CR = pyUpper (pyReplace name (pyUpper t) row.fullName)) ∧
    (∀ (CR : List StreetEntry) (name t : String) (row : StreetEntry),
        streetTypeSearch name = some t →
        CR.find? (fun r => r.commonName == pyUpper t) = none →
        CR.find? (fun r => r.uspsName == pyUpper t) = some row →
        update_name name CR = pyUpper (pyReplace name (pyUpper t) row.fullName)) ∧
    update_name (pyUpper "Lincoln St") [⟨"STREET", "ST", "ST"⟩] = "LINCOLN STREET" := by
  refine ⟨?_, ?_, rfl⟩
  · intro CR name t row hs hc
    simp only [update_name, hs, hc]
  · intro CR name t row hs hc hu
    simp only [update_name, hs, hc, hu]

/-- C5 witness: with a table whose common-name column maps `"ST"` to
`"STREET"` and whose USPS-name column maps `"ST"` to `"SAINT"` in another row,
the common-name match wins and `"LINCOLN ST"` becomes `"LINCOLN STREET"`. -/
theorem update_name_common_priority_witness :
    update_name "LINCOLN ST" [⟨"STREET", "ST", "QQ"⟩, ⟨"SAINT", "QQ", "ST"⟩] =
      "LINCOLN STREET" := by
  have h := update_name_common_priority.1
    [⟨"STREET", "ST", "QQ"⟩, ⟨"SAINT", "QQ", "ST"⟩]
    "LINCOLN ST" "ST" ⟨"STREET", "ST", "QQ"⟩ rfl rfl
  exact h.trans rfl

/-- C6: a city-typed value whose uppercased form has no exact match in the
original-name column is passed through uppercased and unchanged (a lookup miss
is the defined fallback, not an error). -/
theorem update_city_name_miss_fallback (CR : List CityEntry) (v : String)
    (h : ∀ r ∈ CR, r.originalName ≠ pyUpper v) :
    update_city_name (pyUpper v) CR = .ok (pyUpper v) := by
  have hany : (CR.any fun r => r.originalName == pyUpper (pyUpper v)) = false := by
    rw [pyUpper_idem]
    simp only [List.any_eq_false]
    intro r hr
    simpa using h r hr
  simp only [update_city_name, hany]
  simp

/-- C6 witness: with a city table containing only `"LAS VEGAS"`, the input
`"Vegas"` (uppercased on entry to `"VEGAS"`) misses and is returned
unchanged. -/
theorem update_city_name_miss_fallback_witness :
    update_city_name (pyUpper "Vegas") [⟨"LAS VEGAS", "LAS VEGAS"⟩] =
      .ok (pyUpper "Vegas") ∧ pyUpper "Vegas" = "VEGAS" :=
  ⟨update_city_name_miss_fallback [⟨"LAS VEGAS", "LAS VEGAS"⟩] "Vegas" (by decide),
   rfl⟩

/-- C7: for a regular key (no separator, no disallowed character) the
normalized value is just the uppercased raw value, and running the same tag
through `handle_tags` again with its own output value yields the same value:
normalization is idempotent for type `"regular"`. -/
theorem handle_tags_regular_idempotent (cr : List StreetEntry)
    (ccr : List CityEntry) (k v : String)
    (h1 : hasProblemChars k = false) (h2 : k.data.contains ':' = false) :
    handle_tags cr ccr k v = .ok ⟨k, pyUpper v, "regular"⟩ ∧
    handle_tags cr ccr k (pyUpper v) = .ok ⟨k, pyUpper v, "regular"⟩ := by
  constructor
  · simp only [handle_tags, h1, h2, Bool.false_eq_true, if_false]
  · simp only [handle_tags, h1, h2, Bool.false_eq_true, if_false, pyUpper_idem]

/-- C7 witness: the regular tag `k="amenity"`, `v="fast_food"` normalizes to
`"FAST_FOOD"`, and re-normalizing `"FAST_FOOD"` yields `"FAST_FOOD"` again. -/
theorem handle_tags_regular_idempotent_witness :
    handle_tags [] [] "amenity" "fast_food" =
      .ok ⟨"amenity", pyUpper "fast_food", "regular"⟩ ∧
    handle_tags [] [] "amenity" (pyUpper "fast_food") =
      .ok ⟨"amenity", pyUpper "fast_food", "regular"⟩ :=
  handle_tags_regular_idempotent [] [] "amenity" "fast_food" rfl rfl

/-- C10: when the trailing token of a street value hits the cross-reference
(in either column), the substitution is `str.replace` over the whole value:
every occurrence of the uppercased token is rewritten, not only the trailing
one; e.g. with `"ST"` mapped to `"STREET"`, the value `"STAR ST"` becomes
`"STREETAR STREET"` — the `"ST"` inside `"STAR"` is rewritten too. -/
theorem update_name_replaces_every_occurrence :
    (∀ (CR : List StreetEntry) (name t : String) (row : StreetEntry),
        streetTypeSearch name = some t →
        (CR.find? (fun r => r.commonName == pyUpper t) = some row ∨
         (CR.find? (fun r => r.commonName == pyUpper t) = none ∧
          CR.find? (fun r => r.uspsName == pyUpper t) = some row)) →
        update_name name CR = pyUpper (pyReplace name (pyUpper t) row.fullName)) ∧
    update_name "STAR ST" [⟨"STREET", "ST", "ST"⟩] = "STREETAR STREET" := by
  refine ⟨?_, rfl⟩
  intro CR name t row hs hrow
  rcases hrow with hc | ⟨hc, hu⟩
  · simp only [update_name, hs, hc]
  · simp only [update_name, hs, hc, hu]

/-- C10 witness: concrete application showing a non-trailing occurrence being
rewritten: `"STAR ST"` with `"ST"` mapped to `"STREET"` yields
`"STREETAR STREET"`. -/
theorem update_name_replaces_every_occurrence_witness :
    update_name "STAR ST" [⟨"STREET", "ST", "ST"⟩] =
      pyUpper (pyReplace "STAR ST" (pyUpper "ST") "STREET") :=
  update_name_replaces_every_occurrence.1 [⟨"STREET", "ST", "ST"⟩]
    "STAR ST" "ST" ⟨"STREET", "ST", "ST"⟩ rfl (Or.inl rfl)

/-- C3: a node or way element missing one of its required primary attributes
makes the primary-field loop raise on the dict access (`KeyError`, the
concrete error the spec's `MissingAttributeError` taxonomy names), and the
element produces no partial output group: `shape_element` propagates the
error instead of returning a record. -/
theorem shape_element_missing_attr_fatal (cr : List StreetEntry)
    (ccr : List CityEntry) (e : XmlElement)
    (h : (e.tag = "node" ∧ ∃ f ∈ NODE_FIELDS, lookupAttr e f = none) ∨
         (e.tag = "way" ∧ ∃ f ∈ WAY_FIELDS, lookupAttr e f = none)) :
    shape_element cr ccr e = .error .keyError := by
  rcases h with ⟨htag, hex⟩ | ⟨htag, hex⟩
  · have ht : (e.tag == "node") = true := by rw [htag]; rfl
    simp only [shape_element, ht, if_true]
    rw [extractFieldsAux_error_of_missing e NODE_FIELDS hex ""]
  · have ht1 : (e.tag == "node") = false := by rw [htag]; rfl
    have ht2 : (e.tag == "way") = true := by rw [htag]; rfl
    simp only [shape_element, ht1, ht2, Bool.false_eq_true, if_false, if_true]
    rw [extractFieldsAux_error_of_missing e WAY_FIELDS hex ""]

/-- C3 witness: a node element lacking `uid` is rejected with the
missing-attribute error and yields no output group. -/
theorem shape_element_missing_attr_fatal_witness :
    shape_element [] []
      (.mk "node"
        [("id", "7"), ("lat", "1"), ("lon", "2"), ("user", "u"),
         ("version", "4"), ("changeset", "5"), ("timestamp", "t")] []) =
      .error .keyError :=
  shape_element_missing_attr_fatal [] [] _ (Or.inl ⟨rfl, "uid", by decide, rfl⟩)

/-- C8 counterexample: the owner id stored on emitted records is the raw id
attribute captured before the loops, while the primary record stores the
uppercased id, so for a node with id attribute `"a1"` the tag record's owner
id `"a1"` differs from the primary record's id `"A1"`. -/
theorem shape_element_owner_id_counterexample :
    shape_element [] []
      (.mk "node"
        [("id", "a1"), ("lat", "1"), ("lon", "2"), ("user", "u"), ("uid", "3"),
         ("version", "4"), ("changeset", "5"), ("timestamp", "t")]
        [.mk "tag" [("k", "amenity"), ("v", "x")] []]) =
      .ok (some (.node
        [("id", "A1"), ("lat", "1"), ("lon", "2"), ("user", "U"), ("uid", "3"),
         ("version", "4"), ("changeset", "5"), ("timestamp", "T")]
        [⟨"a1", "amenity", "X", "regular"⟩])) ∧
    ("a1" : String) ≠ "A1" := ⟨rfl, by decide⟩

/-- C8 amended: every emitted secondary-tag record and way-node record carries
the raw id attribute of the element (captured before the child loops rebind
the working element variable), while the primary record stores its uppercased
form; the two agree exactly when uppercasing leaves the id unchanged (as for
the all-numeric OSM ids). -/
theorem shape_element_owner_id_raw (cr : List StreetEntry) (ccr : List CityEntry)
    (e : XmlElement) (out : Shaped) (i : String)
    (hok : shape_element cr ccr e = .ok (some out))
    (hid : lookupAttr e "id" = some i) :
    match out with
    | .node ats tags =>
        List.lookup "id" ats = some (pyUpper i) ∧ ∀ t ∈ tags, t.id = i
    | .way ats wns tags =>
        List.lookup "id" ats = some (pyUpper i) ∧
        (∀ t ∈ tags, t.id = i) ∧ ∀ wn ∈ wns, wn.id = i := by
  simp only [shape_element] at hok
  split at hok
  · split at hok
    · cases hok
    · next ats i0 hext =>
      split at hok
      · cases hok
      · next tags htags =>
        cases hok
        have hi0 : i0 = i :=
          extractFieldsAux_captures_id e i hid NODE_FIELDS (by decide) "" ats i0 hext
        refine ⟨extractFieldsAux_lookup_id e i hid NODE_FIELDS (by decide) "" ats i0 hext, ?_⟩
        intro t ht
        rw [← hi0]
        exact processTags_owner i0 cr ccr _ tags htags t ht
  · split at hok
    · split at hok
      · cases hok
      · next ats i0 hext =>
        split at hok
        · cases hok
        · next tags htags =>
          split at hok
          · cases hok
          · next wns hwns =>
            cases hok
            have hi0 : i0 = i :=
              extractFieldsAux_captures_id e i hid WAY_FIELDS (by decide) "" ats i0 hext
            refine ⟨extractFieldsAux_lookup_id e i hid WAY_FIELDS (by decide) "" ats i0 hext, ?_, ?_⟩
            · intro t ht
              rw [← hi0]
              exact processTags_owner i0 cr ccr _ tags htags t ht
            · intro wn hwn
              rw [← hi0]
              exact (processNds_owner i0 _ 0 wns hwns wn hwn).1
    · cases hok

/-- C8 amended witness: for a node with the all-numeric id `"757860928"`, the
primary id and the tag-record owner id coincide. -/
theorem shape_element_owner_id_raw_witness :
    List.lookup "id"
      [("id", "757860928"), ("lat", "41.97"), ("lon", "-87.69"),
       ("user", "UBOOT"), ("uid", "26299"), ("version", "2"),
       ("changeset", "5288876"), ("timestamp", "2010-07-22")] =
      some (pyUpper "757860928") ∧
    ∀ t ∈ [(⟨"757860928", "amenity", "FAST_FOOD", "regular"⟩ : TagRecord)],
      t.id = "757860928" :=
  shape_element_owner_id_raw [] []
    (.mk "node"
      [("id", "757860928"), ("user", "uboot"), ("uid", "26299"),
       ("version", "2"), ("lat", "41.97"), ("lon", "-87.69"),
       ("timestamp", "2010-07-22"), ("changeset", "5288876")]
      [.mk "tag" [("k", "amenity"), ("v", "fast_food")] []])
    (.node
      [("id", "757860928"), ("lat", "41.97"), ("lon", "-87.69"),
       ("user", "UBOOT"), ("uid", "26299"), ("version", "2"),
       ("changeset", "5288876"), ("timestamp", "2010-07-22")]
      [⟨"757860928", "amenity", "FAST_FOOD", "regular"⟩])
    "757860928" rfl rfl

/-- C9: every stored primary-attribute value is the uppercased form of the
corresponding raw attribute of the source element, and every stored way-node
`node_id` is an uppercased string — the shaper uppercases all extracted
attribute strings (id, user, timestamp, `nd` refs, ...), not only tag
values. -/
theorem shape_element_stores_uppercased (cr : List StreetEntry)
    (ccr : List CityEntry) (e : XmlElement) (out : Shaped)
    (hok : shape_element cr ccr e = .ok (some out)) :
    match out with
    | .node ats _ =>
        ∀ p ∈ ats, ∃ raw, lookupAttr e p.1 = some raw ∧ p.2 = pyUpper raw
    | .way ats wns _ =>
        (∀ p ∈ ats, ∃ raw, lookupAttr e p.1 = some raw ∧ p.2 = pyUpper raw) ∧
        ∀ wn ∈ wns, ∃ raw, wn.node_id = pyUpper raw := by
  simp only [shape_element] at hok
  split at hok
  · split at hok
    · cases hok
    · next ats i0 hext =>
      split at hok
      · cases hok
      · next tags htags =>
        cases hok
        exact extractFieldsAux_vals e NODE_FIELDS "" ats i0 hext
  · split at hok
    · split at hok
      · cases hok
      · next ats i0 hext =>
        split at hok
        · cases hok
        · next tags htags =>
          split at hok
          · cases hok
          · next wns hwns =>
            cases hok
            refine ⟨extractFieldsAux_vals e WAY_FIELDS "" ats i0 hext, ?_⟩
            intro wn hwn
            exact (processNds_owner i0 _ 0 wns hwns wn hwn).2
    · cases hok

/-- C9 witness: a way with lowercase raw attributes and a lowercase `nd` ref
stores them uppercased. -/
theorem shape_element_stores_uppercased_witness :
    (∀ p ∈ [("id", "W1"), ("user", "BOB"), ("uid", "3"), ("version", "4"),
        ("changeset", "5"), ("timestamp", "T")],
      ∃ raw,
        lookupAttr
          (.mk "way"
            [("id", "w1"), ("user", "bob"), ("uid", "3"), ("version", "4"),
             ("changeset", "5"), ("timestamp", "t")]
            [.mk "nd" [("ref", "abc")] []]) p.1 = some raw ∧
        p.2 = pyUpper raw) ∧
    ∀ wn ∈ [((⟨"w1", "ABC", 0⟩ : WayNodeRecord))],
      ∃ raw, wn.node_id = pyUpper raw :=
  shape_element_stores_uppercased [] []
    (.mk "way"
      [("id", "w1"), ("user", "bob"), ("uid", "3"), ("version", "4"),
       ("changeset", "5"), ("timestamp", "t")]
      [.mk "nd" [("ref", "abc")] []])
    (.way
      [("id", "W1"), ("user", "BOB"), ("uid", "3"), ("version", "4"),
       ("changeset", "5"), ("timestamp", "T")]
      [⟨"w1", "ABC", 0⟩] [])
    rfl
